import Mathlib

/-!
Shallow embedding of `nx_cfg_parser.py`, a decoder for a binary
system-settings container, together with proofs about its behaviour.

Python strings are modelled as lists of Unicode code points (`List Nat`),
byte buffers as `List Nat`, and the sequential file handle as a byte list
plus an explicit read position.  Fallible operations (`struct.unpack`,
`bytes.decode`, indexing) return `Option`/`Except`; an uncaught Python
exception is modelled by the `PyExn` type.  Diagnostic lines written to
stderr by `eprint` are modelled by the `Diag` type, each constructor
carrying the numeric data interpolated into the message.
-/

namespace NxCfg

/-- Code points of a Lean string literal, used to write Python strings. -/
def S (s : String) : List Nat := s.data.map Char.toNat

/-- `CFG_TYPE_STR = 0x01` from the source. -/
def CFG_TYPE_STR : Nat := 0x01

/-- `CFG_TYPE_U8 = 0x02` from the source. -/
def CFG_TYPE_U8 : Nat := 0x02

/-- `CFG_TYPE_U32 = 0x03` from the source. -/
def CFG_TYPE_U32 : Nat := 0x03

/-- `file.read(n)` at position `pos`: up to `n` bytes, short at EOF. -/
def readAt (data : List Nat) (pos n : Nat) : List Nat := (data.drop pos).take n

/-- Little-endian 32-bit value of a 4-byte buffer. -/
def u32le (l : List Nat) : Nat :=
  match l with
  | [a, b, c, d] => a + b * 256 + c * 65536 + d * 16777216
  | _ => 0

/-- `struct.unpack('<I', buf)`: requires exactly 4 bytes, else `struct.error`. -/
def unpackI (l : List Nat) : Option Nat :=
  match l with
  | [a, b, c, d] => some (u32le [a, b, c, d])
  | _ => none

/-- `struct.unpack('<BI', buf)`: one byte then a little-endian u32, 5 bytes. -/
def unpackBI (l : List Nat) : Option (Nat × Nat) :=
  match l with
  | [t, a, b, c, d] => some (t, u32le [a, b, c, d])
  | _ => none

/-- UTF-8 continuation byte test. -/
def isCont (b : Nat) : Bool := decide (0x80 ≤ b) && decide (b ≤ 0xBF)

/-- Second-byte constraint of a 3-byte UTF-8 sequence (no overlongs, no
surrogates), as enforced by Python's strict `bytes.decode('utf-8')`. -/
def cont2Ok (b0 b1 : Nat) : Bool :=
  if b0 = 0xE0 then decide (0xA0 ≤ b1) && decide (b1 ≤ 0xBF)
  else if b0 = 0xED then decide (0x80 ≤ b1) && decide (b1 ≤ 0x9F)
  else isCont b1

/-- Second-byte constraint of a 4-byte UTF-8 sequence (no overlongs, max
code point `U+10FFFF`). -/
def cont3Ok (b0 b1 : Nat) : Bool :=
  if b0 = 0xF0 then decide (0x90 ≤ b1) && decide (b1 ≤ 0xBF)
  else if b0 = 0xF4 then decide (0x80 ≤ b1) && decide (b1 ≤ 0x8F)
  else isCont b1

/-- `bytes.decode('utf-8')` with strict error handling: `none` models a
raised `UnicodeDecodeError`, `some` is the list of decoded code points. -/
def utf8Decode : List Nat → Option (List Nat)
  | [] => some []
  | b0 :: rest =>
    if b0 ≤ 0x7F then
      (utf8Decode rest).map (fun cs => b0 :: cs)
    else if 0xC2 ≤ b0 ∧ b0 ≤ 0xDF then
      match rest with
      | b1 :: rest2 =>
        if isCont b1 then
          (utf8Decode rest2).map (fun cs => ((b0 - 0xC0) * 0x40 + (b1 - 0x80)) :: cs)
        else none
      | [] => none
    else if 0xE0 ≤ b0 ∧ b0 ≤ 0xEF then
      match rest with
      | b1 :: b2 :: rest3 =>
        if cont2Ok b0 b1 && isCont b2 then
          (utf8Decode rest3).map
            (fun cs => ((b0 - 0xE0) * 0x1000 + (b1 - 0x80) * 0x40 + (b2 - 0x80)) :: cs)
        else none
      | _ => none
    else if 0xF0 ≤ b0 ∧ b0 ≤ 0xF4 then
      match rest with
      | b1 :: b2 :: b3 :: rest4 =>
        if cont3Ok b0 b1 && isCont b2 && isCont b3 then
          (utf8Decode rest4).map
            (fun cs =>
              ((b0 - 0xF0) * 0x40000 + (b1 - 0x80) * 0x1000 +
                (b2 - 0x80) * 0x40 + (b3 - 0x80)) :: cs)
        else none
      | _ => none
    else none

/-- Python `str.strip('\x00')`: removes NUL code points from both ends. -/
def stripNul (s : List Nat) : List Nat :=
  ((s.dropWhile (fun c => c == 0)).reverse.dropWhile (fun c => c == 0)).reverse

/-- Python `str.find('!')` (`'!'` is code point 33); `none` models `-1`. -/
def findBang : List Nat → Option Nat
  | [] => none
  | c :: rest => if c = 33 then some 0 else (findBang rest).map (fun i => i + 1)

/-- One uppercase hexadecimal digit as a code point. -/
def hexDigit (n : Nat) : Nat := if n < 10 then 48 + n else 55 + n

/-- Digits of `%X` formatting, most significant first; the first argument
is fuel bounding the number of divisions (any fuel `≥ n` is exact). -/
def natToHexAux : Nat → Nat → List Nat
  | 0, _ => []
  | _ + 1, 0 => []
  | fuel + 1, n + 1 => natToHexAux fuel ((n + 1) / 16) ++ [hexDigit ((n + 1) % 16)]

/-- Python `'%X' % n`: uppercase hexadecimal, minimal width, `"0"` for 0. -/
def natToHex (n : Nat) : List Nat :=
  if n = 0 then [48] else natToHexAux n n

/-- Python `<` on strings (and lists): lexicographic on code points. -/
def strLt : List Nat → List Nat → Bool
  | _, [] => false
  | [], _ :: _ => true
  | a :: as, b :: bs => if a < b then true else if b < a then false else strLt as bs

/-- A parsed entry value: `(entry_offset, type, value)`. -/
abbrev Entry := Nat × Nat × List Nat

/-- The owner dictionary: `setting name → (entry_offset, type, value)`.
Python dicts are modelled as association lists in insertion order. -/
abbrev OwnerCfg := List (List Nat × Entry)

/-- The two-level mapping `cfg`: `owner → OwnerCfg`. -/
abbrev Cfg := List (List Nat × OwnerCfg)

instance : DecidableEq Entry := inferInstance

instance : DecidableEq OwnerCfg := inferInstance

instance : DecidableEq (List Nat × OwnerCfg) := inferInstance

instance : DecidableEq Cfg := inferInstance

instance {α β : Type} [DecidableEq α] [DecidableEq β] : DecidableEq (Except α β) :=
  fun x y =>
  match x, y with
  | .ok a, .ok b =>
    if h : a = b then .isTrue (by rw [h]) else .isFalse (fun hc => h (by injection hc))
  | .error a, .error b =>
    if h : a = b then .isTrue (by rw [h]) else .isFalse (fun hc => h (by injection hc))
  | .ok _, .error _ => .isFalse (fun hc => Except.noConfusion hc)
  | .error _, .ok _ => .isFalse (fun hc => Except.noConfusion hc)

/-- Python `d.get(k)` on an insertion-ordered dict. -/
def dictGet {α : Type} : List (List Nat × α) → List Nat → Option α
  | [], _ => none
  | (k', v) :: rest, k => if k = k' then some v else dictGet rest k

/-- Python `d.get(k, default)`. -/
def dictGetD {α : Type} (l : List (List Nat × α)) (k : List Nat) (d : α) : α :=
  (dictGet l k).getD d

/-- Python `d.update(\x7bk: v\x7d)`: replaces in place, or appends a new key. -/
def dictUpdate {α : Type} (k : List Nat) (v : α) : List (List Nat × α) → List (List Nat × α)
  | [] => [(k, v)]
  | (k', v') :: rest => if k = k' then (k, v) :: rest else (k', v') :: dictUpdate k v rest

/-- Key order used by `sorted(d.items())`: never reached on equal keys
because dict keys are unique, so comparing keys only is faithful. -/
def keyLe {α : Type} (p q : List Nat × α) : Prop := strLt q.1 p.1 = false

instance {α : Type} : DecidableRel (@keyLe α) :=
  fun p q => inferInstanceAs (Decidable (strLt q.1 p.1 = false))

/-- Python `sorted(d.items())` (stable, keys unique). -/
def sortByKey {α : Type} (l : List (List Nat × α)) : List (List Nat × α) :=
  l.insertionSort keyLe

/-- A Python exception escaping the decoder. -/
inductive PyExn
  | structError
  | unicodeDecodeError
  | indexError
deriving DecidableEq, Repr

/-- One `eprint` diagnostic, tagged with its interpolated numeric data. -/
inductive Diag
  | sizeMismatch
  | truncatedHeader (entryOffset bytesLeft : Nat)
  | truncatedName (entryOffset bytesLeft nameSize : Nat)
  | malformedName (entryOffset : Nat)
  | missingOwner (entryOffset : Nat)
  | truncatedValue (entryOffset bytesLeft valueSize : Nat)
  | valueSizeMismatch (entryOffset : Nat)
  | unknownType (entryOffset typeByte : Nat)
deriving DecidableEq, Repr

/-- Why the record walk stopped early: a diagnosed `break`, or an
uncaught exception. -/
inductive Stop
  | diag (d : Diag)
  | exn (e : PyExn)
deriving DecidableEq, Repr

/-- Result of one iteration of the `while offset < size` body for a
single record (lines 56-116 of the source): either the walk stops, or
the record `(owner, name, entry)` is produced together with the new file
position and cursor. -/
inductive StepRes
  | stop (s : Stop)
  | next (pos offset : Nat) (owner nm : List Nat) (e : Entry)
deriving DecidableEq, Repr

/-- The per-record body of the parse loop.  `pos` is the real file
position (advanced by the bytes actually returned by each read), while
`offset` is the cursor variable of the source, advanced by declared
field sizes. -/
def walkStep (data : List Nat) (size pos offset : Nat) : StepRes :=
  if offset + 4 > size then
    .stop (.diag (.truncatedHeader offset (size - offset)))
  else
    let buf := readAt data pos 4
    match unpackI buf with
    | none => .stop (.exn .structError)
    | some nameSize =>
      let pos1 := pos + buf.length
      let offset1 := offset + 4
      if nameSize = 0 ∨ offset1 + nameSize + 5 > size then
        .stop (.diag (.truncatedName offset (size - offset1) nameSize))
      else
        let nbuf := readAt data pos1 nameSize
        match utf8Decode nbuf with
        | none => .stop (.exn .unicodeDecodeError)
        | some decoded =>
          let nm := stripNul decoded
          if nm.length ≠ nameSize - 1 then
            .stop (.diag (.malformedName offset))
          else
            let pos2 := pos1 + nbuf.length
            let offset2 := offset1 + nameSize
            match findBang nm with
            | none => .stop (.diag (.missingOwner offset))
            | some i =>
              let tbuf := readAt data pos2 5
              match unpackBI tbuf with
              | none => .stop (.exn .structError)
              | some (ty, valueSize) =>
                let pos3 := pos2 + tbuf.length
                let offset3 := offset2 + 5
                if offset3 + valueSize > size then
                  .stop (.diag (.truncatedValue offset (size - offset3) valueSize))
                else
                  let value := readAt data pos3 valueSize
                  let pos4 := pos3 + value.length
                  let offset4 := offset3 + valueSize
                  if (ty = CFG_TYPE_U8 ∧ value.length ≠ 1) ∨
                      (ty = CFG_TYPE_U32 ∧ value.length ≠ 4) then
                    .stop (.diag (.valueSizeMismatch offset))
                  else
                    .next pos4 offset4 (nm.take i) (nm.drop (i + 1)) (offset, ty, value)

/-- The `while offset < size` loop of `parseSystemSettings`, collecting
records into `cfg` (lines 109-116).  The fuel argument only bounds the
iteration count; the caller passes `size`, which always suffices since
the cursor advances by at least 9 per record. -/
def walkLoop (data : List Nat) (size : Nat) :
    Nat → Nat → Nat → Cfg → Cfg × Option Stop
  | fuel, pos, offset, cfg =>
    if offset < size then
      match fuel with
      | 0 => (cfg, none)
      | fuel' + 1 =>
        match walkStep data size pos offset with
        | .stop s => (cfg, some s)
        | .next pos' offset' owner nm e =>
          walkLoop data size fuel' pos' offset'
            (dictUpdate owner (dictUpdate nm e (dictGetD cfg owner [])) cfg)
    else (cfg, none)

/-- The records successfully walked, in stream order, mirroring
`walkLoop` step for step. -/
def walkRecords (data : List Nat) (size : Nat) :
    Nat → Nat → Nat → List (List Nat × List Nat × Entry)
  | fuel, pos, offset =>
    if offset < size then
      match fuel with
      | 0 => []
      | fuel' + 1 =>
        match walkStep data size pos offset with
        | .stop _ => []
        | .next pos' offset' owner nm e =>
          (owner, nm, e) :: walkRecords data size fuel' pos' offset'
    else []

/-- `printStringSetting`: decode the value as UTF-8, strip NULs from both
ends, and render `name = str!"value"`. -/
def printStringSetting (nm : List Nat) (value : List Nat) : Except PyExn (List Nat) :=
  match utf8Decode value with
  | none => .error .unicodeDecodeError
  | some d => .ok (nm ++ S " = str!\"" ++ stripNul d ++ S "\"")

/-- `printU8Setting`: render `name = u8!0x%X` from `value[0]`. -/
def printU8Setting (nm : List Nat) (value : List Nat) : Except PyExn (List Nat) :=
  match value with
  | [] => .error .indexError
  | b :: _ => .ok (nm ++ S " = u8!0x" ++ natToHex b)

/-- `printU32Setting`: render `name = u32!0x%X` from the little-endian
u32 in `value`. -/
def printU32Setting (nm : List Nat) (value : List Nat) : Except PyExn (List Nat) :=
  match unpackI value with
  | none => .error .structError
  | some v => .ok (nm ++ S " = u32!0x" ++ natToHex v)

/-- Lift a print-function exception into a rendering stop. -/
def liftExn {α : Type} : Except PyExn α → Except Stop α
  | .ok a => .ok a
  | .error e => .error (.exn e)

/-- The `cfg_type_dict` dispatch plus the unknown-type check
(lines 129-135): one rendered line, or the reason rendering stops. -/
def renderEntry (nm : List Nat) (e : Entry) : Except Stop (List Nat) :=
  match e with
  | (entryOffset, ty, value) =>
    if ty = CFG_TYPE_STR then liftExn (printStringSetting nm value)
    else if ty = CFG_TYPE_U8 then liftExn (printU8Setting nm value)
    else if ty = CFG_TYPE_U32 then liftExn (printU32Setting nm value)
    else .error (.diag (.unknownType entryOffset ty))

/-- Render the (already sorted) entries of one owner group; on a failure
the lines printed so far are kept and the stop reason is returned. -/
def renderEntries : List (List Nat × Entry) → List (List Nat) × Option Stop
  | [] => ([], none)
  | (nm, e) :: rest =>
    match renderEntry nm e with
    | .error s => ([], some s)
    | .ok line =>
      match renderEntries rest with
      | (ls, st) => (line :: ls, st)

/-- Render the sorted owner groups (lines 120-137): group header, the
group's entries sorted by name, then a blank line; a render failure
aborts the remaining output. -/
def renderGroups : List (List Nat × OwnerCfg) → List (List Nat) × Option Stop
  | [] => ([], none)
  | (owner, ownerCfg) :: rest =>
    match renderEntries (sortByKey ownerCfg) with
    | (ls, some s) => ((S "[" ++ owner ++ S "]") :: ls, some s)
    | (ls, none) =>
      match renderGroups rest with
      | (ls2, st2) => ((S "[" ++ owner ++ S "]") :: ls ++ [[]] ++ ls2, st2)

/-- `Print ordered config entries` section of the source. -/
def renderCfg (cfg : Cfg) : List (List Nat) × Option Stop :=
  renderGroups (sortByKey cfg)

/-- Observable outcome of one `parseSystemSettings` call: the lines
printed on stdout, the diagnostics printed on stderr, and the uncaught
exception if one escaped. -/
structure ParseResult where
  out : List (List Nat)
  errs : List Diag
  exn : Option PyExn
deriving DecidableEq, Repr

/-- Diagnostics carried by an optional rendering stop. -/
def stopDiags : Option Stop → List Diag
  | some (.diag d) => [d]
  | _ => []

/-- Exception carried by an optional rendering stop. -/
def stopExn : Option Stop → Option PyExn
  | some (.exn e) => some e
  | _ => none

/-- `parseSystemSettings(path, size)` on an opened byte source `data`:
header validation, record walk, then rendering of the collected `cfg`. -/
def parseSystemSettings (data : List Nat) (size : Nat) : ParseResult :=
  match unpackI (readAt data 0 4) with
  | none => ⟨[], [], some .structError⟩
  | some settingsSize =>
    if settingsSize ≠ size then ⟨[], [.sizeMismatch], none⟩
    else
      match walkLoop data size size 4 4 [] with
      | (_, some (.exn e)) => ⟨[], [], some e⟩
      | (cfg, some (.diag d)) =>
        match renderCfg cfg with
        | (out, rstop) => ⟨out, d :: stopDiags rstop, stopExn rstop⟩
      | (cfg, none) =>
        match renderCfg cfg with
        | (out, rstop) => ⟨out, stopDiags rstop, stopExn rstop⟩

/-- The file-size guard in `main` (line 153): inputs of actual size at
most 4 are rejected before `parseSystemSettings` is invoked. -/
def mainRejectsSize (size : Nat) : Bool := decide (size ≤ 4)

/-- Lines 109-116 of the source: insert one walked record into `cfg`. -/
def applyRec (cfg : Cfg) (r : List Nat × List Nat × Entry) : Cfg :=
  dictUpdate r.1 (dictUpdate r.2.1 r.2.2 (dictGetD cfg r.1 [])) cfg

/-- Two-level lookup in the collected mapping. -/
def dictGet2 (cfg : Cfg) (o n : List Nat) : Option Entry :=
  match dictGet cfg o with
  | none => none
  | some d => dictGet d n

/-- The last record in stream order carrying the key `(o, n)`. -/
def lastMatch (recs : List (List Nat × List Nat × Entry)) (o n : List Nat) : Option Entry :=
  ((recs.filter (fun r => decide (r.1 = o) && decide (r.2.1 = n))).getLast?).map
    (fun r => r.2.2)

/-- Value-length agreement of one entry with its declared type. -/
def lenOk (e : Entry) : Prop :=
  (e.2.1 = CFG_TYPE_U8 → e.2.2.length = 1) ∧ (e.2.1 = CFG_TYPE_U32 → e.2.2.length = 4)

/-- Every entry collected in `cfg` satisfies `lenOk`. -/
def LenInv (cfg : Cfg) : Prop := ∀ p ∈ cfg, ∀ q ∈ p.2, lenOk q.2

/-- Both dictionary levels of `cfg` have duplicate-free keys. -/
def InvCfg (cfg : Cfg) : Prop :=
  (cfg.map Prod.fst).Nodup ∧ ∀ p ∈ cfg, (p.2.map Prod.fst).Nodup

/-- The rendered line of an entry, when rendering succeeds. -/
def lineOf (nm : List Nat) (e : Entry) : List Nat :=
  match renderEntry nm e with
  | .ok l => l
  | .error _ => []

/-- Rendering of the name field as specified (trailing NUL stripping
only), used to compare the spec text with the code. -/
def stripNulRight (s : List Nat) : List Nat :=
  (s.reverse.dropWhile (fun c => c == 0)).reverse

/-- The STR rendering the spec text describes: UTF-8 decode, then strip
only trailing NUL bytes. -/
def specStringLine (nm : List Nat) (value : List Nat) : Option (List Nat) :=
  (utf8Decode value).map (fun d => nm ++ S " = str!\"" ++ stripNulRight d ++ S "\"")

/-! ### Reads and unpacking -/

theorem readAt_length (data : List Nat) (pos n : Nat) :
    (readAt data pos n).length = min n (data.length - pos) := by
  simp [readAt]

theorem unpackI_of_length {l : List Nat} (h : l.length = 4) :
    unpackI l = some (u32le l) := by
  match l with
  | [_, _, _, _] => rfl
  | [] => simp at h
  | [_] => simp at h
  | [_, _] => simp at h
  | [_, _, _] => simp at h
  | _ :: _ :: _ :: _ :: _ :: _ => simp at h

theorem unpackI_length {l : List Nat} {x : Nat} (h : unpackI l = some x) :
    l.length = 4 := by
  match l with
  | [_, _, _, _] => rfl
  | [] => simp [unpackI] at h
  | [_] => simp [unpackI] at h
  | [_, _] => simp [unpackI] at h
  | [_, _, _] => simp [unpackI] at h
  | _ :: _ :: _ :: _ :: _ :: _ => simp [unpackI] at h

theorem unpackBI_isSome_of_length {l : List Nat} (h : l.length = 5) :
    (unpackBI l).isSome = true := by
  match l with
  | [_, _, _, _, _] => rfl
  | [] => simp at h
  | [_] => simp at h
  | [_, _] => simp at h
  | [_, _, _] => simp at h
  | [_, _, _, _] => simp at h
  | _ :: _ :: _ :: _ :: _ :: _ :: _ => simp at h

/-! ### The string order used by sorting -/

theorem strLt_asymm : ∀ a b : List Nat, strLt a b = true → strLt b a = false := by
  intro a
  induction a with
  | nil =>
    intro b h
    cases b with
    | nil => simp [strLt] at h
    | cons y ys => simp [strLt]
  | cons x xs ih =>
    intro b h
    cases b with
    | nil => simp [strLt] at h
    | cons y ys =>
      simp only [strLt] at h ⊢
      by_cases hxy : x < y
      · have hyx : ¬ y < x := by omega
        simp [if_neg hyx, if_pos hxy]
      · simp only [if_neg hxy] at h
        by_cases hyx : y < x
        · simp [if_pos hyx] at h
        · simp only [if_neg hyx] at h
          simp only [if_neg hxy, if_neg hyx]
          exact ih ys h

theorem strLt_eq_of_not : ∀ a b : List Nat, strLt a b = false → strLt b a = false → a = b := by
  intro a
  induction a with
  | nil =>
    intro b h1 _
    cases b with
    | nil => rfl
    | cons y ys => simp [strLt] at h1
  | cons x xs ih =>
    intro b h1 h2
    cases b with
    | nil => simp [strLt] at h2
    | cons y ys =>
      simp only [strLt] at h1 h2
      by_cases hxy : x < y
      · simp [if_pos hxy] at h1
      · by_cases hyx : y < x
        · simp [if_pos hyx] at h2
        · simp only [if_neg hxy, if_neg hyx] at h1 h2
          have hx : x = y := by omega
          have hxs : xs = ys := ih ys h1 h2
          rw [hx, hxs]

theorem strLt_trans : ∀ a b c : List Nat,
    strLt a b = true → strLt b c = true → strLt a c = true := by
  intro a
  induction a with
  | nil =>
    intro b c _ h2
    cases c with
    | nil =>
      cases b with
      | nil => simp [strLt] at h2
      | cons y ys => simp [strLt] at h2
    | cons z zs => simp [strLt]
  | cons x xs ih =>
    intro b c h1 h2
    cases b with
    | nil => simp [strLt] at h1
    | cons y ys =>
      cases c with
      | nil => simp [strLt] at h2
      | cons z zs =>
        simp only [strLt] at h1 h2 ⊢
        by_cases hxy : x < y
        · by_cases hyz : y < z
          · simp [if_pos (show x < z by omega)]
          · by_cases hzy : z < y
            · rw [if_neg hyz, if_pos hzy] at h2
              exact Bool.noConfusion h2
            · have : y = z := by omega
              simp [if_pos (show x < z by omega)]
        · by_cases hyx : y < x
          · simp [if_neg hxy, if_pos hyx] at h1
          · have hxyeq : x = y := by omega
            simp only [if_neg hxy, if_neg hyx] at h1
            by_cases hyz : y < z
            · simp [if_pos (show x < z by omega)]
            · by_cases hzy : z < y
              · simp [if_neg hyz, if_pos hzy] at h2
              · simp only [if_neg hyz, if_neg hzy] at h2
                have hxz : ¬ x < z := by omega
                have hzx : ¬ z < x := by omega
                simp only [if_neg hxz, if_neg hzx]
                exact ih ys zs h1 h2

instance {α : Type} : IsTotal (List Nat × α) keyLe := by
  constructor
  intro p q
  unfold keyLe
  cases hb : strLt q.1 p.1 with
  | false => exact Or.inl rfl
  | true => exact Or.inr (strLt_asymm _ _ hb)

instance {α : Type} : IsTrans (List Nat × α) keyLe := by
  constructor
  intro p q r h1 h2
  unfold keyLe at h1 h2 ⊢
  cases hb : strLt r.1 p.1 with
  | false => rfl
  | true =>
    exfalso
    cases hc : strLt p.1 q.1 with
    | true =>
      have hrq := strLt_trans _ _ _ hb hc
      rw [hrq] at h2
      cases h2
    | false =>
      have hpq := strLt_eq_of_not _ _ hc h1
      rw [hpq] at hb
      rw [hb] at h2
      cases h2

theorem sortByKey_perm {α : Type} (l : List (List Nat × α)) : (sortByKey l).Perm l :=
  List.perm_insertionSort _ l

theorem sortByKey_sorted {α : Type} (l : List (List Nat × α)) :
    (sortByKey l).Pairwise keyLe :=
  List.sorted_insertionSort _ l

theorem sortByKey_mem {α : Type} {l : List (List Nat × α)} {p : List Nat × α} :
    p ∈ sortByKey l ↔ p ∈ l :=
  (sortByKey_perm l).mem_iff

theorem sortByKey_pairwise_lt {α : Type} (l : List (List Nat × α))
    (h : (l.map Prod.fst).Nodup) :
    (sortByKey l).Pairwise (fun p q => strLt p.1 q.1 = true) := by
  have hs : (sortByKey l).Pairwise keyLe := sortByKey_sorted l
  have hperm : ((sortByKey l).map Prod.fst).Perm (l.map Prod.fst) := (sortByKey_perm l).map _
  have hn : ((sortByKey l).map Prod.fst).Nodup := hperm.nodup_iff.mpr h
  have hne : (sortByKey l).Pairwise (fun p q => p.1 ≠ q.1) := List.pairwise_map.mp hn
  refine (hs.and hne).imp ?_
  intro p q hpq
  obtain ⟨h1, h2⟩ := hpq
  cases hb : strLt p.1 q.1 with
  | true => rfl
  | false => exact absurd (strLt_eq_of_not _ _ hb h1) h2

/-! ### Dictionary lemmas -/

theorem dictUpdate_cons_self {α : Type} (k : List Nat) (v v0 : α)
    (rest : List (List Nat × α)) :
    dictUpdate k v ((k, v0) :: rest) = (k, v) :: rest := by
  simp [dictUpdate]

theorem dictUpdate_cons_ne {α : Type} {k k0 : List Nat} (hk : ¬ k = k0) (v : α) (v0 : α)
    (rest : List (List Nat × α)) :
    dictUpdate k v ((k0, v0) :: rest) = (k0, v0) :: dictUpdate k v rest := by
  simp [dictUpdate, hk]

theorem dictGet_cons_self {α : Type} (k : List Nat) (v0 : α)
    (rest : List (List Nat × α)) : dictGet ((k, v0) :: rest) k = some v0 := by
  simp [dictGet]

theorem dictGet_cons_ne {α : Type} {k k0 : List Nat} (hk : ¬ k = k0) (v0 : α)
    (rest : List (List Nat × α)) : dictGet ((k0, v0) :: rest) k = dictGet rest k := by
  simp [dictGet, hk]

theorem dictGet_dictUpdate {α : Type} (k : List Nat) (v : α)
    (l : List (List Nat × α)) (k' : List Nat) :
    dictGet (dictUpdate k v l) k' = if k' = k then some v else dictGet l k' := by
  induction l with
  | nil => simp [dictUpdate, dictGet]
  | cons p rest ih =>
    obtain ⟨k0, v0⟩ := p
    by_cases hk : k = k0
    · subst hk
      rw [dictUpdate_cons_self]
      by_cases hk' : k' = k
      · subst hk'
        rw [dictGet_cons_self, if_pos rfl]
      · rw [dictGet_cons_ne hk', dictGet_cons_ne hk', if_neg hk']
    · rw [dictUpdate_cons_ne hk]
      by_cases hk' : k' = k0
      · subst hk'
        rw [dictGet_cons_self, dictGet_cons_self, if_neg (fun he => hk he.symm)]
      · rw [dictGet_cons_ne hk', dictGet_cons_ne hk', ih]

theorem mem_dictUpdate {α : Type} {p : List Nat × α} {k : List Nat} {v : α}
    {l : List (List Nat × α)} (h : p ∈ dictUpdate k v l) : p = (k, v) ∨ p ∈ l := by
  induction l with
  | nil =>
    simp [dictUpdate] at h
    exact Or.inl h
  | cons q rest ih =>
    obtain ⟨k0, v0⟩ := q
    by_cases hk : k = k0
    · subst hk
      rw [dictUpdate_cons_self, List.mem_cons] at h
      rcases h with h | h
      · exact Or.inl h
      · exact Or.inr (List.mem_cons_of_mem _ h)
    · rw [dictUpdate_cons_ne hk, List.mem_cons] at h
      rcases h with h | h
      · exact Or.inr (List.mem_cons.mpr (Or.inl h))
      · rcases ih h with h' | h'
        · exact Or.inl h'
        · exact Or.inr (List.mem_cons_of_mem _ h')

theorem dictGet_mem {α : Type} {l : List (List Nat × α)} {k : List Nat} {v : α}
    (h : dictGet l k = some v) : (k, v) ∈ l := by
  induction l with
  | nil => simp [dictGet] at h
  | cons q rest ih =>
    obtain ⟨k0, v0⟩ := q
    by_cases hk : k = k0
    · subst hk
      rw [dictGet_cons_self, Option.some.injEq] at h
      subst h
      exact List.mem_cons_self _ _
    · rw [dictGet_cons_ne hk] at h
      exact List.mem_cons_of_mem _ (ih h)

theorem mem_dictGet_of_nodup {α : Type} {l : List (List Nat × α)}
    (hn : (l.map Prod.fst).Nodup) {k : List Nat} {v : α} (h : (k, v) ∈ l) :
    dictGet l k = some v := by
  induction l with
  | nil => simp at h
  | cons q rest ih =>
    obtain ⟨k0, v0⟩ := q
    simp only [List.map_cons, List.nodup_cons] at hn
    rcases List.mem_cons.mp h with h' | h'
    · have hk : k = k0 := congrArg Prod.fst h'
      have hv : v = v0 := congrArg Prod.snd h'
      simp [dictGet, hk, hv]
    · have hk : ¬ k = k0 := by
        intro he
        subst he
        exact hn.1 (List.mem_map.mpr ⟨(k, v), h', rfl⟩)
      simp only [dictGet, if_neg hk]
      exact ih hn.2 h'

theorem nodup_map_fst_dictUpdate {α : Type} (k : List Nat) (v : α)
    {l : List (List Nat × α)} (h : (l.map Prod.fst).Nodup) :
    ((dictUpdate k v l).map Prod.fst).Nodup := by
  induction l with
  | nil => simp [dictUpdate]
  | cons q rest ih =>
    obtain ⟨k0, v0⟩ := q
    simp only [List.map_cons, List.nodup_cons] at h
    by_cases hk : k = k0
    · subst hk
      rw [dictUpdate_cons_self]
      simp only [List.map_cons, List.nodup_cons]
      exact ⟨h.1, h.2⟩
    · rw [dictUpdate_cons_ne hk]
      simp only [List.map_cons, List.nodup_cons]
      refine ⟨?_, ih h.2⟩
      intro hmem
      rcases List.mem_map.mp hmem with ⟨p, hp, hfst⟩
      rcases mem_dictUpdate hp with h' | h'
      · subst h'
        exact hk (by simpa using hfst)
      · exact h.1 (List.mem_map.mpr ⟨p, h', hfst⟩)

/-! ### The collected `cfg` as a fold over the walked records -/

theorem dictGet2_applyRec (cfg : Cfg) (r : List Nat × List Nat × Entry) (o n : List Nat) :
    dictGet2 (applyRec cfg r) o n =
      if r.1 = o ∧ r.2.1 = n then some r.2.2 else dictGet2 cfg o n := by
  unfold dictGet2 applyRec
  rw [dictGet_dictUpdate]
  by_cases ho : o = r.1
  · rw [if_pos ho]
    simp only []
    rw [dictGet_dictUpdate]
    by_cases hn : n = r.2.1
    · rw [if_pos hn, if_pos ⟨ho.symm, hn.symm⟩]
    · have hcond : ¬ (r.1 = o ∧ r.2.1 = n) := fun hc => hn hc.2.symm
      rw [if_neg hn, if_neg hcond, ho]
      unfold dictGetD
      cases hg : dictGet cfg r.1 with
      | none => simp [dictGet]
      | some d => simp
  · have hcond : ¬ (r.1 = o ∧ r.2.1 = n) := fun hc => ho hc.1.symm
    rw [if_neg ho, if_neg hcond]

theorem lastMatch_cons (r : List Nat × List Nat × Entry)
    (rs : List (List Nat × List Nat × Entry)) (o n : List Nat) :
    lastMatch (r :: rs) o n =
      match lastMatch rs o n with
      | some e => some e
      | none => if r.1 = o ∧ r.2.1 = n then some r.2.2 else none := by
  unfold lastMatch
  by_cases hr : r.1 = o ∧ r.2.1 = n
  · have hp : (decide (r.1 = o) && decide (r.2.1 = n)) = true := by simp [hr.1, hr.2]
    rw [List.filter_cons]
    simp only [hp, if_true]
    cases hf : rs.filter (fun r => decide (r.1 = o) && decide (r.2.1 = n)) with
    | nil => simp [hr]
    | cons a as =>
      cases hg : (a :: as).getLast? with
      | none =>
        rw [List.getLast?_eq_none_iff] at hg
        cases hg
      | some b => simp [List.getLast?_cons_cons, hg]
  · have hp : (decide (r.1 = o) && decide (r.2.1 = n)) = false := by
      rcases not_and_or.mp hr with h | h <;> simp [h]
    rw [List.filter_cons]
    simp only [hp, if_false]
    cases hf : rs.filter (fun r => decide (r.1 = o) && decide (r.2.1 = n)) with
    | nil => simp [hr]
    | cons a as =>
      cases hg : (a :: as).getLast? with
      | none =>
        rw [List.getLast?_eq_none_iff] at hg
        cases hg
      | some b => simp [hg]

theorem foldl_applyRec_dictGet2 :
    ∀ (recs : List (List Nat × List Nat × Entry)) (cfg : Cfg) (o n : List Nat),
    dictGet2 (List.foldl applyRec cfg recs) o n =
      match lastMatch recs o n with
      | some e => some e
      | none => dictGet2 cfg o n := by
  intro recs
  induction recs with
  | nil =>
    intro cfg o n
    simp [lastMatch]
  | cons r rs ih =>
    intro cfg o n
    rw [List.foldl_cons, ih, lastMatch_cons]
    cases hm : lastMatch rs o n with
    | some e => simp
    | none =>
      simp only []
      rw [dictGet2_applyRec]
      by_cases hr : r.1 = o ∧ r.2.1 = n
      · rw [if_pos hr, if_pos hr]
      · rw [if_neg hr, if_neg hr]

/-! ### Facts about single walk steps -/

theorem unpackBI_length {l : List Nat} {x : Nat × Nat} (h : unpackBI l = some x) :
    l.length = 5 := by
  match l with
  | [_, _, _, _, _] => rfl
  | [] => simp [unpackBI] at h
  | [_] => simp [unpackBI] at h
  | [_, _] => simp [unpackBI] at h
  | [_, _, _] => simp [unpackBI] at h
  | [_, _, _, _] => simp [unpackBI] at h
  | _ :: _ :: _ :: _ :: _ :: _ :: _ => simp [unpackBI] at h

theorem walkStep_next_lenOk {data : List Nat} {size pos offset pos' offset' : Nat}
    {ow nm : List Nat} {e : Entry}
    (h : walkStep data size pos offset = .next pos' offset' ow nm e) : lenOk e := by
  unfold walkStep at h
  dsimp only at h
  repeat' split at h
  all_goals try exact StepRes.noConfusion h
  rename_i hguard
  injection h with h1 h2 h3 h4 h5
  subst h5
  push_neg at hguard
  exact ⟨hguard.1, hguard.2⟩

theorem walkStep_next_offset_gt {data : List Nat} {size pos offset pos' offset' : Nat}
    {ow nm : List Nat} {e : Entry}
    (h : walkStep data size pos offset = .next pos' offset' ow nm e) :
    offset < offset' := by
  unfold walkStep at h
  dsimp only at h
  repeat' split at h
  all_goals try exact StepRes.noConfusion h
  injection h with h1 h2 h3 h4 h5
  omega

theorem walkStep_ne_indexError (data : List Nat) (size pos offset : Nat) :
    walkStep data size pos offset ≠ .stop (.exn .indexError) := by
  intro h
  unfold walkStep at h
  dsimp only at h
  repeat' split at h
  all_goals simp_all

theorem readAt_length_eq {data : List Nat} {pos n : Nat} (h : pos + n ≤ data.length) :
    (readAt data pos n).length = n := by
  rw [readAt_length]
  exact Nat.min_eq_left (by omega)

theorem walkStep_ne_structError {data : List Nat} {size pos offset : Nat}
    (hlen : data.length = size) (hpo : pos = offset) :
    walkStep data size pos offset ≠ .stop (.exn .structError) := by
  subst hpo
  intro h
  unfold walkStep at h
  dsimp only at h
  repeat' split at h
  all_goals try exact StepRes.noConfusion h
  all_goals try (injection h with h'; exact Stop.noConfusion h')
  all_goals try (injection h with h'; injection h' with h''; exact PyExn.noConfusion h'')
  · rename_i hg hx heq
    have hl : (readAt data pos 4).length = 4 := readAt_length_eq (by omega)
    rw [unpackI_of_length hl] at heq
    cases heq
  · rename_i hg1 hx3 nsz heq1 hg2 hx2 dec heq2 hl2 hx1 ib hfb hx0 heqB
    have hb4 : (readAt data pos 4).length = 4 := unpackI_length heq1
    rw [hb4] at heqB
    have hnb : (readAt data (pos + 4) nsz).length = nsz := readAt_length_eq (by omega)
    rw [hnb] at heqB
    have ht := unpackBI_isSome_of_length
      (show (readAt data (pos + 4 + nsz) 5).length = 5 from readAt_length_eq (by omega))
    rw [heqB] at ht
    simp at ht

theorem walkStep_next_pos_eq {data : List Nat} {size pos offset pos' offset' : Nat}
    {ow nm : List Nat} {e : Entry}
    (hlen : data.length = size) (hpo : pos = offset)
    (h : walkStep data size pos offset = .next pos' offset' ow nm e) :
    pos' = offset' := by
  subst hpo
  unfold walkStep at h
  dsimp only at h
  repeat' split at h
  all_goals try exact StepRes.noConfusion h
  rename_i hg1 hx3 nsz heq1 hg2 hx2 dec heq2 hl2 hx1 ib hfb hx0 ty vsz heqB hg3 hguard
  injection h with h1 h2 h3 h4 h5
  have hb4 : (readAt data pos 4).length = 4 := unpackI_length heq1
  rw [hb4] at h1
  have hnb : (readAt data (pos + 4) nsz).length = nsz := readAt_length_eq (by omega)
  rw [hnb] at h1
  have htb : (readAt data (pos + 4 + nsz) 5).length = 5 := readAt_length_eq (by omega)
  rw [htb] at h1
  have hvb : (readAt data (pos + 4 + nsz + 5) vsz).length = vsz := readAt_length_eq (by omega)
  rw [hvb] at h1
  omega

/-! ### The loop as a fold over the record stream -/

theorem walkLoop_fst (data : List Nat) (size : Nat) :
    ∀ (fuel pos offset : Nat) (cfg : Cfg),
    (walkLoop data size fuel pos offset cfg).1 =
      List.foldl applyRec cfg (walkRecords data size fuel pos offset) := by
  intro fuel
  induction fuel with
  | zero =>
    intro pos offset cfg
    unfold walkLoop walkRecords
    by_cases h : offset < size <;> simp [h]
  | succ n ih =>
    intro pos offset cfg
    unfold walkLoop walkRecords
    by_cases h : offset < size
    · simp only [if_pos h]
      cases hs : walkStep data size pos offset with
      | stop s => simp
      | next pos' offset' owner nm e =>
        simp only [List.foldl_cons]
        exact ih pos' offset' _
    · simp [h]

theorem walkRecords_lenOk (data : List Nat) (size : Nat) :
    ∀ (fuel pos offset : Nat) (r : List Nat × List Nat × Entry),
    r ∈ walkRecords data size fuel pos offset → lenOk r.2.2 := by
  intro fuel
  induction fuel with
  | zero =>
    intro pos offset r hr
    unfold walkRecords at hr
    by_cases h : offset < size <;> simp [h] at hr
  | succ n ih =>
    intro pos offset r hr
    unfold walkRecords at hr
    by_cases h : offset < size
    · simp only [if_pos h] at hr
      cases hs : walkStep data size pos offset with
      | stop s => rw [hs] at hr; simp at hr
      | next pos' offset' owner nm e =>
        rw [hs] at hr
        simp only [List.mem_cons] at hr
        rcases hr with hr | hr
        · subst hr
          exact walkStep_next_lenOk hs
        · exact ih pos' offset' r hr
    · simp [h] at hr

theorem walkLoop_snd_no_exn {data : List Nat} {size : Nat} (hlen : data.length = size) :
    ∀ (fuel pos offset : Nat) (cfg : Cfg), pos = offset →
      (walkLoop data size fuel pos offset cfg).2 ≠ some (.exn .structError) ∧
      (walkLoop data size fuel pos offset cfg).2 ≠ some (.exn .indexError) := by
  intro fuel
  induction fuel with
  | zero =>
    intro pos offset cfg hpo
    unfold walkLoop
    by_cases h : offset < size <;> simp [h]
  | succ n ih =>
    intro pos offset cfg hpo
    unfold walkLoop
    by_cases h : offset < size
    · simp only [if_pos h]
      cases hs : walkStep data size pos offset with
      | stop s =>
        constructor
        · intro hc
          simp only [Option.some.injEq] at hc
          rw [hc] at hs
          exact walkStep_ne_structError hlen hpo hs
        · intro hc
          simp only [Option.some.injEq] at hc
          rw [hc] at hs
          exact walkStep_ne_indexError data size pos offset hs
      | next pos' offset' owner nm e =>
        exact ih pos' offset' _ (walkStep_next_pos_eq hlen hpo hs)
    · simp [h]

/-! ### Invariant preservation through record insertion -/

theorem lenInv_applyRec {cfg : Cfg} {r : List Nat × List Nat × Entry}
    (h : LenInv cfg) (hr : lenOk r.2.2) : LenInv (applyRec cfg r) := by
  intro p hp q hq
  rcases mem_dictUpdate hp with hp' | hp'
  · subst hp'
    rcases mem_dictUpdate hq with hq' | hq'
    · subst hq'
      exact hr
    · unfold dictGetD at hq'
      cases hg : dictGet cfg r.1 with
      | none => rw [hg] at hq'; simp at hq'
      | some d =>
        rw [hg] at hq'
        exact h _ (dictGet_mem hg) q hq'
  · exact h p hp' q hq

theorem invCfg_applyRec {cfg : Cfg} {r : List Nat × List Nat × Entry}
    (h : InvCfg cfg) : InvCfg (applyRec cfg r) := by
  constructor
  · exact nodup_map_fst_dictUpdate _ _ h.1
  · intro p hp
    rcases mem_dictUpdate hp with hp' | hp'
    · subst hp'
      refine nodup_map_fst_dictUpdate _ _ ?_
      unfold dictGetD
      cases hg : dictGet cfg r.1 with
      | none => simp
      | some d => exact h.2 _ (dictGet_mem hg)
    · exact h.2 p hp'

theorem lenInv_foldl :
    ∀ (recs : List (List Nat × List Nat × Entry)) (cfg : Cfg),
    LenInv cfg → (∀ r ∈ recs, lenOk r.2.2) →
    LenInv (List.foldl applyRec cfg recs) := by
  intro recs
  induction recs with
  | nil => intro cfg h _; exact h
  | cons r rs ih =>
    intro cfg h hr
    rw [List.foldl_cons]
    exact ih _ (lenInv_applyRec h (hr r (List.mem_cons_self _ _)))
      (fun q hq => hr q (List.mem_cons_of_mem _ hq))

theorem invCfg_foldl :
    ∀ (recs : List (List Nat × List Nat × Entry)) (cfg : Cfg),
    InvCfg cfg → InvCfg (List.foldl applyRec cfg recs) := by
  intro recs
  induction recs with
  | nil => intro cfg h; exact h
  | cons r rs ih =>
    intro cfg h
    rw [List.foldl_cons]
    exact ih _ (invCfg_applyRec h)

/-! ### Rendering lemmas -/

theorem renderEntry_error_cases {nm : List Nat} {e : Entry} {s : Stop}
    (hok : lenOk e) (h : renderEntry nm e = .error s) :
    s = .exn .unicodeDecodeError ∨ s = .diag (.unknownType e.1 e.2.1) := by
  obtain ⟨off, ty, value⟩ := e
  unfold renderEntry at h
  dsimp only at h ⊢
  by_cases h1 : ty = CFG_TYPE_STR
  · rw [if_pos h1] at h
    unfold liftExn printStringSetting at h
    cases hd : utf8Decode value with
    | none => rw [hd] at h; injection h with h'; exact Or.inl h'.symm
    | some d => rw [hd] at h; cases h
  · rw [if_neg h1] at h
    by_cases h2 : ty = CFG_TYPE_U8
    · rw [if_pos h2] at h
      have hv : value.length = 1 := hok.1 h2
      cases value with
      | nil => simp at hv
      | cons b rest =>
        unfold liftExn printU8Setting at h
        cases h
    · rw [if_neg h2] at h
      by_cases h3 : ty = CFG_TYPE_U32
      · rw [if_pos h3] at h
        have hv : value.length = 4 := hok.2 h3
        unfold liftExn printU32Setting at h
        rw [unpackI_of_length hv] at h
        cases h
      · rw [if_neg h3] at h
        injection h with h'
        exact Or.inr h'.symm

theorem renderEntries_no_exn {l : List (List Nat × Entry)}
    (h : ∀ q ∈ l, lenOk q.2) :
    (renderEntries l).2 ≠ some (.exn .structError) ∧
    (renderEntries l).2 ≠ some (.exn .indexError) := by
  induction l with
  | nil => simp [renderEntries]
  | cons q rest ih =>
    obtain ⟨nm, e⟩ := q
    unfold renderEntries
    cases hr : renderEntry nm e with
    | error s =>
      have := renderEntry_error_cases (h _ (List.mem_cons_self _ _)) hr
      constructor
      · intro hc
        simp only [Option.some.injEq] at hc
        subst hc
        rcases this with h' | h' <;> cases h'
      · intro hc
        simp only [Option.some.injEq] at hc
        subst hc
        rcases this with h' | h' <;> cases h'
    | ok line =>
      have ih' := ih (fun q hq => h q (List.mem_cons_of_mem _ hq))
      cases hre : renderEntries rest with
      | mk ls st =>
        rw [hre] at ih'
        exact ih'

theorem renderGroups_no_exn {groups : List (List Nat × OwnerCfg)}
    (h : ∀ g ∈ groups, ∀ q ∈ g.2, lenOk q.2) :
    (renderGroups groups).2 ≠ some (.exn .structError) ∧
    (renderGroups groups).2 ≠ some (.exn .indexError) := by
  induction groups with
  | nil => simp [renderGroups]
  | cons g rest ih =>
    obtain ⟨owner, ownerCfg⟩ := g
    unfold renderGroups
    have hsorted : ∀ q ∈ sortByKey ownerCfg, lenOk q.2 := by
      intro q hq
      exact h _ (List.mem_cons_self _ _) q (sortByKey_mem.mp hq)
    have he := renderEntries_no_exn hsorted
    cases hre : renderEntries (sortByKey ownerCfg) with
    | mk ls st =>
      rw [hre] at he
      cases st with
      | some s =>
        constructor
        · intro hc
          simp only [Option.some.injEq] at hc
          exact he.1 (by rw [hc])
        · intro hc
          simp only [Option.some.injEq] at hc
          exact he.2 (by rw [hc])
      | none =>
        have ih' := ih (fun g hg => h g (List.mem_cons_of_mem _ hg))
        cases hrg : renderGroups rest with
        | mk ls2 st2 =>
          rw [hrg] at ih'
          exact ih'

theorem renderCfg_no_exn {cfg : Cfg} (h : LenInv cfg) :
    (renderCfg cfg).2 ≠ some (.exn .structError) ∧
    (renderCfg cfg).2 ≠ some (.exn .indexError) := by
  unfold renderCfg
  refine renderGroups_no_exn ?_
  intro g hg q hq
  exact h g (sortByKey_mem.mp hg) q hq

/-! ### Hexadecimal formatting -/

theorem natToHexAux_zero : ∀ fuel, natToHexAux fuel 0 = [] := by
  intro fuel
  cases fuel <;> rfl

theorem hexDigit_range {n : Nat} (h : n < 16) :
    (48 ≤ hexDigit n ∧ hexDigit n ≤ 57) ∨ (65 ≤ hexDigit n ∧ hexDigit n ≤ 70) := by
  unfold hexDigit
  by_cases h10 : n < 10
  · rw [if_pos h10]
    left
    omega
  · rw [if_neg h10]
    right
    omega

theorem natToHexAux_mem : ∀ fuel n c, c ∈ natToHexAux fuel n →
    (48 ≤ c ∧ c ≤ 57) ∨ (65 ≤ c ∧ c ≤ 70) := by
  intro fuel
  induction fuel with
  | zero =>
    intro n c hc
    simp [natToHexAux] at hc
  | succ f ih =>
    intro n c hc
    cases n with
    | zero => simp [natToHexAux] at hc
    | succ m =>
      unfold natToHexAux at hc
      rw [List.mem_append] at hc
      rcases hc with hc | hc
      · exact ih _ c hc
      · simp only [List.mem_singleton] at hc
        subst hc
        exact hexDigit_range (Nat.mod_lt _ (by omega))

theorem natToHexAux_head : ∀ fuel n, n ≠ 0 → n ≤ fuel →
    natToHexAux fuel n ≠ [] ∧ (natToHexAux fuel n).head? ≠ some 48 := by
  intro fuel
  induction fuel with
  | zero =>
    intro n h0 hle
    omega
  | succ f ih =>
    intro n h0 hle
    cases n with
    | zero => exact absurd rfl h0
    | succ m =>
      unfold natToHexAux
      by_cases hdiv : (m + 1) / 16 = 0
      · rw [hdiv, natToHexAux_zero, List.nil_append]
        have hlt : m + 1 < 16 := by omega
        have hmod : (m + 1) % 16 = m + 1 := Nat.mod_eq_of_lt hlt
        rw [hmod]
        refine ⟨by simp, ?_⟩
        rw [List.head?_cons]
        unfold hexDigit
        split <;> (intro hc; injection hc with hc'; omega)
      · have hih := ih ((m + 1) / 16) hdiv (by omega)
        refine ⟨?_, ?_⟩
        · intro hc
          rcases List.append_eq_nil.mp hc with ⟨hc1, _⟩
          exact hih.1 hc1
        · cases hh : natToHexAux f ((m + 1) / 16) with
          | nil => exact absurd hh hih.1
          | cons a as =>
            rw [List.cons_append, List.head?_cons]
            rw [hh, List.head?_cons] at hih
            exact hih.2

theorem natToHex_digits (n : Nat) : ∀ c ∈ natToHex n,
    (48 ≤ c ∧ c ≤ 57) ∨ (65 ≤ c ∧ c ≤ 70) := by
  intro c hc
  unfold natToHex at hc
  by_cases h : n = 0
  · rw [if_pos h] at hc
    simp only [List.mem_singleton] at hc
    subst hc
    left
    omega
  · rw [if_neg h] at hc
    exact natToHexAux_mem n n c hc

theorem natToHex_no_leading_zero {n : Nat} (h : n ≠ 0) :
    (natToHex n).head? ≠ some 48 := by
  unfold natToHex
  rw [if_neg h]
  exact (natToHexAux_head n n h (le_refl n)).2

/-! ### The first exclamation mark -/

theorem findBang_first : ∀ (l : List Nat) (i : Nat), findBang l = some i →
    l[i]? = some 33 ∧ ∀ j, j < i → l[j]? ≠ some 33 := by
  intro l
  induction l with
  | nil =>
    intro i h
    simp [findBang] at h
  | cons c rest ih =>
    intro i h
    unfold findBang at h
    by_cases hc : c = 33
    · rw [if_pos hc] at h
      injection h with h'
      subst h'
      refine ⟨by simp [hc], ?_⟩
      intro j hj
      omega
    · rw [if_neg hc] at h
      cases hf : findBang rest with
      | none =>
        rw [hf] at h
        cases h
      | some i' =>
        rw [hf] at h
        simp only [Option.map_some'] at h
        injection h with h'
        subst h'
        obtain ⟨ih1, ih2⟩ := ih i' hf
        refine ⟨by simpa using ih1, ?_⟩
        intro j hj
        cases j with
        | zero =>
          intro hcc
          rw [List.getElem?_cons_zero] at hcc
          injection hcc with hcc'
          exact hc hcc'
        | succ j' =>
          simp only [List.getElem?_cons_succ]
          exact ih2 j' (by omega)

/-! ### Successful rendering -/

theorem renderEntries_ok {l : List (List Nat × Entry)} {ls : List (List Nat)}
    (h : renderEntries l = (ls, none)) :
    ls = l.map (fun p => lineOf p.1 p.2) ∧
    ∀ p ∈ l, renderEntry p.1 p.2 = .ok (lineOf p.1 p.2) := by
  induction l generalizing ls with
  | nil =>
    unfold renderEntries at h
    injection h with h1 h2
    subst h1
    exact ⟨rfl, by simp⟩
  | cons q rest ih =>
    obtain ⟨nm, e⟩ := q
    unfold renderEntries at h
    cases hr : renderEntry nm e with
    | error s =>
      rw [hr] at h
      injection h with h1 h2
      exact Option.noConfusion h2
    | ok line =>
      rw [hr] at h
      cases hre : renderEntries rest with
      | mk ls' st =>
        rw [hre] at h
        injection h with h1 h2
        subst h2
        obtain ⟨ih1, ih2⟩ := ih hre
        subst h1
        constructor
        · rw [List.map_cons, ih1]
          congr 1
          unfold lineOf
          rw [hr]
        · intro p hp
          rcases List.mem_cons.mp hp with hp' | hp'
          · subst hp'
            unfold lineOf
            rw [hr]
          · exact ih2 p hp'

theorem renderGroups_ok {groups : List (List Nat × OwnerCfg)} {out : List (List Nat)}
    (h : renderGroups groups = (out, none)) :
    out = (groups.map (fun g =>
      (S "[" ++ g.1 ++ S "]") :: (sortByKey g.2).map (fun p => lineOf p.1 p.2) ++ [[]])).flatten ∧
    ∀ g ∈ groups, ∀ p ∈ sortByKey g.2, renderEntry p.1 p.2 = .ok (lineOf p.1 p.2) := by
  induction groups generalizing out with
  | nil =>
    unfold renderGroups at h
    injection h with h1 h2
    subst h1
    exact ⟨rfl, by simp⟩
  | cons g rest ih =>
    obtain ⟨owner, ownerCfg⟩ := g
    unfold renderGroups at h
    cases hre : renderEntries (sortByKey ownerCfg) with
    | mk ls st =>
      rw [hre] at h
      cases st with
      | some s =>
        injection h with h1 h2
        exact Option.noConfusion h2
      | none =>
        cases hrg : renderGroups rest with
        | mk ls2 st2 =>
          rw [hrg] at h
          injection h with h1 h2
          subst h2
          obtain ⟨ih1, ih2⟩ := ih hrg
          obtain ⟨he1, he2⟩ := renderEntries_ok hre
          subst h1
          constructor
          · rw [List.map_cons, List.flatten_cons, he1, ih1]
          · intro g hg p hp
            rcases List.mem_cons.mp hg with hg' | hg'
            · subst hg'
              exact he2 p hp
            · exact ih2 g hg' p hp

/-! ### Decomposing a fully successful parse -/

theorem parse_success_shape {data : List Nat} {size : Nat} {res : ParseResult}
    (hp : parseSystemSettings data size = res) (he : res.errs = []) (hx : res.exn = none) :
    ∃ cfg, walkLoop data size size 4 4 [] = (cfg, none) ∧ renderCfg cfg = (res.out, none) := by
  unfold parseSystemSettings at hp
  cases hu : unpackI (readAt data 0 4) with
  | none =>
    rw [hu] at hp
    subst hp
    exact Option.noConfusion hx
  | some ssz =>
    rw [hu] at hp
    dsimp only at hp
    by_cases hsz : ssz ≠ size
    · rw [if_pos hsz] at hp
      subst hp
      exact List.noConfusion he
    · rw [if_neg hsz] at hp
      cases hw : walkLoop data size size 4 4 [] with
      | mk cfg wstop =>
        rw [hw] at hp
        cases wstop with
        | none =>
          dsimp only at hp
          cases hr : renderCfg cfg with
          | mk out rstop =>
            rw [hr] at hp
            subst hp
            cases rstop with
            | none => exact ⟨cfg, rfl, hr⟩
            | some s =>
              cases s with
              | diag d => exact List.noConfusion he
              | exn e2 => exact Option.noConfusion hx
        | some s =>
          cases s with
          | exn e2 =>
            dsimp only at hp
            subst hp
            exact Option.noConfusion hx
          | diag d =>
            dsimp only at hp
            cases hr : renderCfg cfg with
            | mk out rstop =>
              rw [hr] at hp
              subst hp
              exact List.noConfusion he

/-! ### Claim C8 -/

/-- C8: a byte source whose first four bytes, read as a little-endian
unsigned 32-bit integer, differ from the caller-supplied actual size
always fails with the `SizeMismatch` diagnostic and emits no line on
standard output. -/
theorem c8_size_mismatch_no_output (data : List Nat) (size : Nat)
    (h4 : 4 ≤ data.length) (hne : u32le (readAt data 0 4) ≠ size) :
    parseSystemSettings data size = ⟨[], [.sizeMismatch], none⟩ := by
  unfold parseSystemSettings
  rw [unpackI_of_length (readAt_length_eq (by omega))]
  dsimp only
  rw [if_pos hne]

theorem c8_size_mismatch_no_output_witness :
    parseSystemSettings [9, 0, 0, 0, 9] 5 = ⟨[], [.sizeMismatch], none⟩ :=
  c8_size_mismatch_no_output [9, 0, 0, 0, 9] 5 (by decide) (by decide)

/-! ### Claim C9 -/

/-- C9: the empty container (declared size 4, actual length 4, no
records) decodes successfully and prints no output line, while the size
guard of `main` rejects every input of actual size at most 4 before the
decoder is invoked. -/
theorem c9_empty_container_and_size_guard :
    parseSystemSettings [4, 0, 0, 0] 4 = ⟨[], [], none⟩ ∧
    ∀ size : Nat, size ≤ 4 → mainRejectsSize size = true := by
  constructor
  · decide
  · intro size h
    unfold mainRejectsSize
    simp [h]

theorem c9_empty_container_and_size_guard_witness :
    mainRejectsSize 4 = true :=
  c9_empty_container_and_size_guard.2 4 (by decide)

/-! ### Claim C2 -/

/-- C2 (amended): rendered `u8` and `u32` values are uppercase
hexadecimal with the `0x` prefix, but they are NOT zero-padded: the
`%X` conversion prints the minimal number of digits (a nonzero value
never starts with the digit 0, and the value 5 renders as `u8!0x5`
respectively `u32!0x5`). -/
theorem c2_hex_rendering_unpadded (nm : List Nat) (b : Nat) (rest : List Nat)
    (v : List Nat) (x : Nat) (hv : unpackI v = some x) :
    printU8Setting nm (b :: rest) = .ok (nm ++ S " = u8!0x" ++ natToHex b) ∧
    printU32Setting nm v = .ok (nm ++ S " = u32!0x" ++ natToHex x) ∧
    (∀ n c, c ∈ natToHex n → (48 ≤ c ∧ c ≤ 57) ∨ (65 ≤ c ∧ c ≤ 70)) ∧
    (∀ n, n ≠ 0 → (natToHex n).head? ≠ some 48) := by
  refine ⟨rfl, ?_, natToHex_digits, fun n h => natToHex_no_leading_zero h⟩
  unfold printU32Setting
  rw [hv]

theorem c2_hex_rendering_unpadded_witness :
    printU8Setting (S "f") [5] = .ok (S "f" ++ S " = u8!0x" ++ natToHex 5) ∧
    printU32Setting (S "g") [5, 0, 0, 0] = .ok (S "g" ++ S " = u32!0x" ++ natToHex 5) :=
  ⟨(c2_hex_rendering_unpadded (S "f") 5 [] [5, 0, 0, 0] 5 (by decide)).1,
   (c2_hex_rendering_unpadded (S "g") 5 [] [5, 0, 0, 0] 5 (by decide)).2.1⟩

/-- C2 counterexample: the container holding the single record
`s!f = u8 0x05` renders the line `f = u8!0x5`, not the zero-padded
`f = u8!0x05` required by the claim. -/
theorem c2_zero_padding_counterexample :
    parseSystemSettings [18, 0, 0, 0, 4, 0, 0, 0, 115, 33, 102, 0, 2, 1, 0, 0, 0, 5] 18 =
      ⟨[S "[s]", S "f = u8!0x5", []], [], none⟩ ∧
    S "f = u8!0x5" ≠ S "f = u8!0x05" := by
  decide

/-! ### Claim C4 -/

/-- C4 (amended): an STR value renders as its UTF-8 decoding with NUL
code points stripped from BOTH ends (Python `str.strip`), so leading
NUL bytes are removed from the rendered string, not preserved. -/
theorem c4_str_rendering_strips_both_ends (nm v d : List Nat)
    (hd : utf8Decode v = some d) :
    printStringSetting nm v = .ok (nm ++ S " = str!\"" ++ stripNul d ++ S "\"") := by
  unfold printStringSetting
  rw [hd]

theorem c4_str_rendering_strips_both_ends_witness :
    printStringSetting (S "b") [0, 97, 0] =
      .ok (S "b" ++ S " = str!\"" ++ stripNul [0, 97, 0] ++ S "\"") :=
  c4_str_rendering_strips_both_ends (S "b") [0, 97, 0] [0, 97, 0] (by decide)

/-- C4 counterexample: for the STR value bytes `00 61` the code renders
`b = str!"a"` (the leading NUL is stripped), while the spec's
trailing-NUL-only stripping would render `b = str!"<NUL>a"`; the two
lines differ. -/
theorem c4_leading_nul_counterexample :
    printStringSetting (S "b") [0, 97] = .ok (S "b = str!\"a\"") ∧
    specStringLine (S "b") [0, 97] = some (S "b = str!\"\x00a\"") ∧
    S "b = str!\"a\"" ≠ S "b = str!\"\x00a\"" := by
  decide

/-! ### Claim C1 -/

/-- C1 (amended): when the record walk stops with a fatal structural
diagnostic, no further record is processed, but the decode does NOT
abort without output: the records collected before the violation are
still rendered and emitted on standard output after the diagnostic. -/
theorem c1_fatal_break_keeps_partial_output (data : List Nat) (size : Nat)
    (cfg : Cfg) (d : Diag)
    (hhdr : unpackI (readAt data 0 4) = some size)
    (hw : walkLoop data size size 4 4 [] = (cfg, some (.diag d))) :
    cfg = List.foldl applyRec [] (walkRecords data size size 4 4) ∧
    parseSystemSettings data size =
      ⟨(renderCfg cfg).1, d :: stopDiags (renderCfg cfg).2, stopExn (renderCfg cfg).2⟩ := by
  constructor
  · have hf := walkLoop_fst data size size 4 4 []
    rw [hw] at hf
    exact hf
  · unfold parseSystemSettings
    rw [hhdr]
    dsimp only
    rw [if_neg (fun hc => hc rfl), hw]

theorem c1_fatal_break_keeps_partial_output_witness :
    ([([97], [([98], (4, 1, []))])] : Cfg) =
      List.foldl applyRec []
        (walkRecords [19, 0, 0, 0, 4, 0, 0, 0, 97, 33, 98, 0, 1, 0, 0, 0, 0, 0, 0] 19 19 4 4) ∧
    parseSystemSettings [19, 0, 0, 0, 4, 0, 0, 0, 97, 33, 98, 0, 1, 0, 0, 0, 0, 0, 0] 19 =
      ⟨(renderCfg [([97], [([98], (4, 1, []))])]).1,
        Diag.truncatedHeader 17 2 :: stopDiags (renderCfg [([97], [([98], (4, 1, []))])]).2,
        stopExn (renderCfg [([97], [([98], (4, 1, []))])]).2⟩ :=
  c1_fatal_break_keeps_partial_output
    [19, 0, 0, 0, 4, 0, 0, 0, 97, 33, 98, 0, 1, 0, 0, 0, 0, 0, 0] 19
    [([97], [([98], (4, 1, []))])] (Diag.truncatedHeader 17 2) (by decide) (by decide)

/-- C1 counterexample: a container whose first record is valid and whose
two trailing bytes trigger the fatal `TruncatedHeader` violation still
prints the first record's group header and setting line on stdout. -/
theorem c1_no_partial_output_counterexample :
    parseSystemSettings [19, 0, 0, 0, 4, 0, 0, 0, 97, 33, 98, 0, 1, 0, 0, 0, 0, 0, 0] 19 =
      ⟨[S "[a]", S "b = str!\"\"", []], [Diag.truncatedHeader 17 2], none⟩ := by
  decide

/-! ### Claim C3 -/

/-- C3 (amended): after the walker's bounds checks, a record whose name
bytes are not valid UTF-8 raises an uncaught `UnicodeDecodeError`
instead of printing a diagnostic, and the `MalformedName` diagnostic
(which carries the entry offset) is reported exactly when the decode
succeeds but the length after stripping NUL code points from both ends
differs from `name_size - 1`; embedded NUL bytes that keep this length
equation intact are accepted, contrary to the claim. -/
theorem c3_name_check_characterisation (data : List Nat)
    (size pos offset nameSize : Nat)
    (h1 : ¬ offset + 4 > size)
    (h2 : unpackI (readAt data pos 4) = some nameSize)
    (h3 : ¬ (nameSize = 0 ∨ offset + 4 + nameSize + 5 > size)) :
    (utf8Decode (readAt data (pos + 4) nameSize) = none →
      walkStep data size pos offset = .stop (.exn .unicodeDecodeError)) ∧
    (∀ decoded, utf8Decode (readAt data (pos + 4) nameSize) = some decoded →
      (walkStep data size pos offset = .stop (.diag (.malformedName offset)) ↔
        (stripNul decoded).length ≠ nameSize - 1)) := by
  have hb4 : (readAt data pos 4).length = 4 := unpackI_length h2
  constructor
  · intro h4
    unfold walkStep
    dsimp only
    rw [if_neg h1, h2]
    dsimp only
    rw [if_neg h3, hb4, h4]
  · intro decoded h4
    constructor
    · intro hws
      by_contra hlen2
      unfold walkStep at hws
      dsimp only at hws
      rw [if_neg h1, h2] at hws
      dsimp only at hws
      rw [if_neg h3, hb4, h4] at hws
      dsimp only at hws
      rw [if_neg (not_not_intro hlen2)] at hws
      repeat' split at hws
      all_goals simp_all
    · intro hlen2
      unfold walkStep
      dsimp only
      rw [if_neg h1, h2]
      dsimp only
      rw [if_neg h3, hb4, h4]
      dsimp only
      rw [if_pos hlen2]

theorem c3_name_check_characterisation_witness :
    walkStep [15, 0, 0, 0, 2, 0, 0, 0, 255, 0, 1, 0, 0, 0, 0] 15 4 4 =
      .stop (.exn .unicodeDecodeError) :=
  (c3_name_check_characterisation [15, 0, 0, 0, 2, 0, 0, 0, 255, 0, 1, 0, 0, 0, 0]
    15 4 4 2 (by decide) (by decide) (by decide)).1 (by decide)

/-- C3 counterexample: the name bytes `61 21 00 62 00` of this record
contain an embedded NUL byte, yet the container decodes with no
diagnostic and no exception, and the record (with setting name starting
with a NUL code point) is rendered - the claimed fatal `MalformedName`
does not occur. -/
theorem c3_embedded_nul_counterexample :
    readAt [18, 0, 0, 0, 5, 0, 0, 0, 97, 33, 0, 98, 0, 1, 0, 0, 0, 0] 8 5 =
      [97, 33, 0, 98, 0] ∧
    parseSystemSettings [18, 0, 0, 0, 5, 0, 0, 0, 97, 33, 0, 98, 0, 1, 0, 0, 0, 0] 18 =
      ⟨[S "[a]", S "\x00b = str!\"\"", []], [], none⟩ := by
  decide

/-! ### Claim C7 -/

/-- C7: once a record's name is decoded and its length check passed, a
name with no exclamation mark always stops the walk with the
`MissingOwner` diagnostic carrying the entry offset; when the name has
an exclamation mark, the walked record's owner is the prefix before the
first one (index `i`) and its setting name is the entire suffix after
it (either may be empty), where `findBang` indeed locates the first
occurrence. -/
theorem c7_owner_separator (data : List Nat) (size pos offset nameSize : Nat)
    (decoded : List Nat)
    (h1 : ¬ offset + 4 > size)
    (h2 : unpackI (readAt data pos 4) = some nameSize)
    (h3 : ¬ (nameSize = 0 ∨ offset + 4 + nameSize + 5 > size))
    (h4 : utf8Decode (readAt data (pos + 4) nameSize) = some decoded)
    (h5 : (stripNul decoded).length = nameSize - 1) :
    (findBang (stripNul decoded) = none →
      walkStep data size pos offset = .stop (.diag (.missingOwner offset))) ∧
    (∀ i pos' offset' ow n2 e, findBang (stripNul decoded) = some i →
      walkStep data size pos offset = .next pos' offset' ow n2 e →
      ow = (stripNul decoded).take i ∧ n2 = (stripNul decoded).drop (i + 1)) ∧
    (∀ (l : List Nat) (i : Nat), findBang l = some i →
      l[i]? = some 33 ∧ ∀ j, j < i → l[j]? ≠ some 33) := by
  have hb4 : (readAt data pos 4).length = 4 := unpackI_length h2
  refine ⟨?_, ?_, findBang_first⟩
  · intro hfb
    unfold walkStep
    dsimp only
    rw [if_neg h1, h2]
    dsimp only
    rw [if_neg h3, hb4, h4]
    dsimp only
    rw [if_neg (not_not_intro h5), hfb]
  · intro i pos' offset' ow n2 e hfb hws
    unfold walkStep at hws
    dsimp only at hws
    rw [if_neg h1, h2] at hws
    dsimp only at hws
    rw [if_neg h3, hb4, h4] at hws
    dsimp only at hws
    rw [if_neg (not_not_intro h5), hfb] at hws
    dsimp only at hws
    repeat' split at hws
    all_goals try exact StepRes.noConfusion hws
    injection hws with hw1 hw2 hw3 hw4 hw5
    exact ⟨hw3.symm, hw4.symm⟩

theorem c7_owner_separator_witness :
    ([97] : List Nat) = (stripNul [97, 33, 98, 0]).take 1 ∧
    ([98] : List Nat) = (stripNul [97, 33, 98, 0]).drop 2 :=
  (c7_owner_separator [18, 0, 0, 0, 4, 0, 0, 0, 97, 33, 98, 0, 1, 1, 0, 0, 0, 55]
      18 4 4 4 [97, 33, 98, 0]
      (by decide) (by decide) (by decide) (by decide) (by decide)).2.1
    1 18 18 [97] [98] (4, 1, [55]) (by decide) (by decide)

/-! ### Claim C6 -/

/-- C6: after every preceding per-record check passes, a `U8` record
whose value payload length is not exactly 1 stops the walk with the
fatal `ValueSizeMismatch` diagnostic, a `U32` record whose payload
length is not exactly 4 does likewise, and an `STR` record is accepted
(walked into the collection) for every payload length including 0. -/
theorem c6_value_size_validation (data : List Nat) (size pos offset nameSize : Nat)
    (decoded : List Nat) (i ty valueSize : Nat)
    (hlen : data.length = size)
    (hpo : pos = offset)
    (h1 : ¬ offset + 4 > size)
    (h2 : unpackI (readAt data pos 4) = some nameSize)
    (h3 : ¬ (nameSize = 0 ∨ offset + 4 + nameSize + 5 > size))
    (h4 : utf8Decode (readAt data (pos + 4) nameSize) = some decoded)
    (h5 : (stripNul decoded).length = nameSize - 1)
    (h6 : findBang (stripNul decoded) = some i)
    (h7 : unpackBI (readAt data (pos + 4 + nameSize) 5) = some (ty, valueSize))
    (h8 : ¬ offset + 4 + nameSize + 5 + valueSize > size) :
    (ty = CFG_TYPE_U8 → valueSize ≠ 1 →
      walkStep data size pos offset = .stop (.diag (.valueSizeMismatch offset))) ∧
    (ty = CFG_TYPE_U32 → valueSize ≠ 4 →
      walkStep data size pos offset = .stop (.diag (.valueSizeMismatch offset))) ∧
    (ty = CFG_TYPE_STR →
      walkStep data size pos offset =
        .next (pos + 4 + nameSize + 5 + valueSize) (offset + 4 + nameSize + 5 + valueSize)
          ((stripNul decoded).take i) ((stripNul decoded).drop (i + 1))
          (offset, ty, readAt data (pos + 4 + nameSize + 5) valueSize)) := by
  subst hpo
  have hb4 : (readAt data pos 4).length = 4 := unpackI_length h2
  have hnb : (readAt data (pos + 4) nameSize).length = nameSize :=
    readAt_length_eq (by omega)
  have htb : (readAt data (pos + 4 + nameSize) 5).length = 5 := unpackBI_length h7
  have hvb : (readAt data (pos + 4 + nameSize + 5) valueSize).length = valueSize :=
    readAt_length_eq (by omega)
  have hchain : walkStep data size pos pos = (
      if (ty = CFG_TYPE_U8 ∧ valueSize ≠ 1) ∨ (ty = CFG_TYPE_U32 ∧ valueSize ≠ 4) then
        .stop (.diag (.valueSizeMismatch pos))
      else
        .next (pos + 4 + nameSize + 5 + valueSize) (pos + 4 + nameSize + 5 + valueSize)
          ((stripNul decoded).take i) ((stripNul decoded).drop (i + 1))
          (pos, ty, readAt data (pos + 4 + nameSize + 5) valueSize)) := by
    unfold walkStep
    dsimp only
    rw [if_neg h1, h2]
    dsimp only
    rw [if_neg h3, hb4, h4]
    dsimp only
    rw [if_neg (not_not_intro h5), h6]
    dsimp only
    rw [hnb, h7]
    dsimp only
    rw [if_neg h8, htb, hvb]
  refine ⟨?_, ?_, ?_⟩
  · intro hty hv
    rw [hchain, if_pos (Or.inl ⟨hty, hv⟩)]
  · intro hty hv
    rw [hchain, if_pos (Or.inr ⟨hty, hv⟩)]
  · intro hty
    rw [hchain, if_neg ?_]
    rintro (⟨h', _⟩ | ⟨h', _⟩) <;>
      (rw [hty] at h'; simp [CFG_TYPE_STR, CFG_TYPE_U8, CFG_TYPE_U32] at h')

theorem c6_value_size_validation_witness :
    walkStep [19, 0, 0, 0, 4, 0, 0, 0, 97, 33, 98, 0, 2, 2, 0, 0, 0, 7, 7] 19 4 4 =
      .stop (.diag (.valueSizeMismatch 4)) :=
  (c6_value_size_validation [19, 0, 0, 0, 4, 0, 0, 0, 97, 33, 98, 0, 2, 2, 0, 0, 0, 7, 7]
      19 4 4 4 [97, 33, 98, 0] 1 2 2
      (by decide) rfl (by decide) (by decide) (by decide) (by decide) (by decide)
      (by decide) (by decide) (by decide)).1 rfl (by decide)

/-! ### Claim C10 -/

/-- C10: whenever the byte source's length equals the supplied size,
every read performed within the declared bounds returns exactly the
requested number of bytes, the walk loop (from any cursor state with
the file position equal to the cursor) never raises the struct-unpack
or indexing exceptions, and the whole parse never ends in
`structError` or `indexError` - in particular `value[0]` in the `U8`
renderer is in bounds for every collected entry. -/
theorem c10_reads_in_bounds (data : List Nat) (size : Nat) (res : ParseResult)
    (hlen : data.length = size) (hs4 : 4 ≤ size)
    (hp : parseSystemSettings data size = res) :
    res.exn ≠ some PyExn.structError ∧ res.exn ≠ some PyExn.indexError ∧
    (∀ pos n, pos + n ≤ size → (readAt data pos n).length = n) ∧
    (∀ fuel pos offset cfg, pos = offset →
      (walkLoop data size fuel pos offset cfg).2 ≠ some (Stop.exn PyExn.structError) ∧
      (walkLoop data size fuel pos offset cfg).2 ≠ some (Stop.exn PyExn.indexError)) := by
  have hreads : ∀ pos n, pos + n ≤ size → (readAt data pos n).length = n := by
    intro pos n h
    exact readAt_length_eq (by omega)
  have hwl := walkLoop_snd_no_exn hlen
  have hexn : res.exn ≠ some PyExn.structError ∧ res.exn ≠ some PyExn.indexError := by
    unfold parseSystemSettings at hp
    rw [unpackI_of_length (hreads 0 4 (by omega))] at hp
    dsimp only at hp
    by_cases hsz : u32le (readAt data 0 4) ≠ size
    · rw [if_pos hsz] at hp
      subst hp
      simp
    · rw [if_neg hsz] at hp
      cases hw : walkLoop data size size 4 4 [] with
      | mk cfg wstop =>
        rw [hw] at hp
        have hcfgLen : LenInv cfg := by
          have hf := walkLoop_fst data size size 4 4 []
          rw [hw] at hf
          dsimp only at hf
          rw [hf]
          exact lenInv_foldl _ [] (by intro p hp'; cases hp')
            (walkRecords_lenOk data size size 4 4)
        cases wstop with
        | none =>
          dsimp only at hp
          cases hr : renderCfg cfg with
          | mk out rstop =>
            rw [hr] at hp
            subst hp
            have hrc := renderCfg_no_exn hcfgLen
            rw [hr] at hrc
            cases rstop with
            | none => simp [stopExn]
            | some s2 =>
              cases s2 with
              | diag d2 => simp [stopExn]
              | exn e2 =>
                constructor
                · intro hc
                  simp only [stopExn, Option.some.injEq] at hc
                  subst hc
                  exact hrc.1 rfl
                · intro hc
                  simp only [stopExn, Option.some.injEq] at hc
                  subst hc
                  exact hrc.2 rfl
        | some s =>
          cases s with
          | diag d =>
            dsimp only at hp
            cases hr : renderCfg cfg with
            | mk out rstop =>
              rw [hr] at hp
              subst hp
              have hrc := renderCfg_no_exn hcfgLen
              rw [hr] at hrc
              cases rstop with
              | none => simp [stopExn]
              | some s2 =>
                cases s2 with
                | diag d2 => simp [stopExn]
                | exn e2 =>
                  constructor
                  · intro hc
                    simp only [stopExn, Option.some.injEq] at hc
                    subst hc
                    exact hrc.1 rfl
                  · intro hc
                    simp only [stopExn, Option.some.injEq] at hc
                    subst hc
                    exact hrc.2 rfl
          | exn e2 =>
            dsimp only at hp
            subst hp
            have hx1 := (hwl size 4 4 [] rfl).1
            have hx2 := (hwl size 4 4 [] rfl).2
            rw [hw] at hx1 hx2
            constructor
            · intro hc
              simp only [Option.some.injEq] at hc
              subst hc
              exact hx1 rfl
            · intro hc
              simp only [Option.some.injEq] at hc
              subst hc
              exact hx2 rfl
  exact ⟨hexn.1, hexn.2, hreads, fun fuel pos offset cfg hpo => hwl fuel pos offset cfg hpo⟩

theorem c10_reads_in_bounds_witness :
    (parseSystemSettings [18, 0, 0, 0, 4, 0, 0, 0, 115, 33, 102, 0, 2, 1, 0, 0, 0, 5] 18).exn ≠
        some PyExn.structError ∧
    (parseSystemSettings [18, 0, 0, 0, 4, 0, 0, 0, 115, 33, 102, 0, 2, 1, 0, 0, 0, 5] 18).exn ≠
        some PyExn.indexError :=
  ⟨(c10_reads_in_bounds [18, 0, 0, 0, 4, 0, 0, 0, 115, 33, 102, 0, 2, 1, 0, 0, 0, 5] 18 _
      (by decide) (by decide) rfl).1,
   (c10_reads_in_bounds [18, 0, 0, 0, 4, 0, 0, 0, 115, 33, 102, 0, 2, 1, 0, 0, 0, 5] 18 _
      (by decide) (by decide) rfl).2.1⟩

/-! ### Claim C5 -/

/-- C5: a fully successful decode (no stderr diagnostic, no exception)
prints the owner groups in strictly increasing lexicographic owner
order, each group consisting of its `[owner]` header line, the group's
entries in strictly increasing lexicographic setting-name order, and
one trailing blank line; and an entry `(o, n, e)` is emitted exactly
when `e` is the last record in stream order with owner `o` and setting
name `n` (same-key collisions resolved last-write-wins). -/
theorem c5_collecting_mode_output (data : List Nat) (size : Nat) (res : ParseResult)
    (hp : parseSystemSettings data size = res) (he : res.errs = []) (hx : res.exn = none) :
    ∃ groups : List (List Nat × OwnerCfg),
      res.out = (groups.map (fun g =>
        (S "[" ++ g.1 ++ S "]") :: g.2.map (fun p => lineOf p.1 p.2) ++ [[]])).flatten ∧
      List.Chain' (fun g g2 => strLt g.1 g2.1 = true) groups ∧
      (∀ g ∈ groups, List.Chain' (fun p q => strLt p.1 q.1 = true) g.2) ∧
      (∀ g ∈ groups, ∀ p ∈ g.2, renderEntry p.1 p.2 = .ok (lineOf p.1 p.2)) ∧
      (∀ o n e, (∃ d, (o, d) ∈ groups ∧ (n, e) ∈ d) ↔
        lastMatch (walkRecords data size size 4 4) o n = some e) := by
  obtain ⟨cfg, hw, hr⟩ := parse_success_shape hp he hx
  have hf := walkLoop_fst data size size 4 4 []
  rw [hw] at hf
  dsimp only at hf
  have hinv : InvCfg cfg := by
    rw [hf]
    exact invCfg_foldl _ [] ⟨List.nodup_nil, by intro p hp'; cases hp'⟩
  obtain ⟨ho1, ho2⟩ :=
    renderGroups_ok (show renderGroups (sortByKey cfg) = (res.out, none) from hr)
  refine ⟨(sortByKey cfg).map (fun p => (p.1, sortByKey p.2)), ?_, ?_, ?_, ?_, ?_⟩
  · rw [ho1, List.map_map]
    rfl
  · have hpl := sortByKey_pairwise_lt cfg hinv.1
    have hmapped : ((sortByKey cfg).map (fun p => (p.1, sortByKey p.2))).Pairwise
        (fun g g2 => strLt g.1 g2.1 = true) := by
      rw [List.pairwise_map]
      exact hpl
    exact hmapped.chain'
  · intro g hg
    rcases List.mem_map.mp hg with ⟨p, hpmem, hpeq⟩
    subst hpeq
    have hpin : p ∈ cfg := sortByKey_mem.mp hpmem
    exact (sortByKey_pairwise_lt p.2 (hinv.2 p hpin)).chain'
  · intro g hg p hp2
    rcases List.mem_map.mp hg with ⟨q, hqmem, hqeq⟩
    subst hqeq
    exact ho2 q hqmem p hp2
  · intro o n e
    have hfold := foldl_applyRec_dictGet2 (walkRecords data size size 4 4) [] o n
    rw [← hf] at hfold
    constructor
    · rintro ⟨d, hdg, hnd⟩
      rcases List.mem_map.mp hdg with ⟨q, hqmem, hqeq⟩
      have hq1 : q.1 = o := congrArg Prod.fst hqeq
      have hq2 : sortByKey q.2 = d := congrArg Prod.snd hqeq
      have hqin : q ∈ cfg := sortByKey_mem.mp hqmem
      have hqget : dictGet cfg o = some q.2 := by
        rw [← hq1]
        exact mem_dictGet_of_nodup hinv.1 (by simpa using hqin)
      have hne : (n, e) ∈ q.2 := by
        rw [← hq2] at hnd
        exact sortByKey_mem.mp hnd
      have hinner : dictGet q.2 n = some e := mem_dictGet_of_nodup (hinv.2 q hqin) hne
      have hdg2 : dictGet2 cfg o n = some e := by
        unfold dictGet2
        rw [hqget]
        exact hinner
      rw [hdg2] at hfold
      cases hlm : lastMatch (walkRecords data size size 4 4) o n with
      | none =>
        rw [hlm] at hfold
        simp [dictGet2, dictGet] at hfold
      | some e2 =>
        rw [hlm] at hfold
        dsimp only at hfold
        injection hfold with h'
        rw [h']
    · intro hlm
      rw [hlm] at hfold
      dsimp only at hfold
      unfold dictGet2 at hfold
      cases hg : dictGet cfg o with
      | none =>
        rw [hg] at hfold
        exact Option.noConfusion hfold
      | some d0 =>
        rw [hg] at hfold
        dsimp only at hfold
        refine ⟨sortByKey d0,
          List.mem_map.mpr ⟨(o, d0), sortByKey_mem.mpr (dictGet_mem hg), rfl⟩,
          sortByKey_mem.mpr (dictGet_mem hfold)⟩

theorem c5_collecting_mode_output_witness :
    ∃ groups : List (List Nat × OwnerCfg),
      (parseSystemSettings
        ([46, 0, 0, 0] ++ [4, 0, 0, 0, 98, 33, 120, 0, 1, 1, 0, 0, 0, 65] ++
          [4, 0, 0, 0, 97, 33, 121, 0, 2, 1, 0, 0, 0, 7] ++
          [4, 0, 0, 0, 98, 33, 120, 0, 1, 1, 0, 0, 0, 66]) 46).out =
        (groups.map (fun g =>
          (S "[" ++ g.1 ++ S "]") :: g.2.map (fun p => lineOf p.1 p.2) ++ [[]])).flatten ∧
      List.Chain' (fun g g2 => strLt g.1 g2.1 = true) groups ∧
      (∀ g ∈ groups, List.Chain' (fun p q => strLt p.1 q.1 = true) g.2) ∧
      (∀ g ∈ groups, ∀ p ∈ g.2, renderEntry p.1 p.2 = .ok (lineOf p.1 p.2)) ∧
      (∀ o n e, (∃ d, (o, d) ∈ groups ∧ (n, e) ∈ d) ↔
        lastMatch (walkRecords
          ([46, 0, 0, 0] ++ [4, 0, 0, 0, 98, 33, 120, 0, 1, 1, 0, 0, 0, 65] ++
            [4, 0, 0, 0, 97, 33, 121, 0, 2, 1, 0, 0, 0, 7] ++
            [4, 0, 0, 0, 98, 33, 120, 0, 1, 1, 0, 0, 0, 66]) 46 46 4 4) o n = some e) :=
  c5_collecting_mode_output
    ([46, 0, 0, 0] ++ [4, 0, 0, 0, 98, 33, 120, 0, 1, 1, 0, 0, 0, 65] ++
      [4, 0, 0, 0, 97, 33, 121, 0, 2, 1, 0, 0, 0, 7] ++
      [4, 0, 0, 0, 98, 33, 120, 0, 1, 1, 0, 0, 0, 66]) 46 _ rfl (by decide) (by decide)

end NxCfg

